import Mathlib

/-!
Shallow embedding of `src/lockServer.go` (package main), a lock server with
four lock-table operations (`lock`, `unlock`, `rlock`, `runlock`) over a
global map from path to `lockCounter` and a global identifier counter `uid`,
plus the transport handlers `lHandler` and `ulHandler`.
Go `int` is modelled as `Int`; the Go map `map[int]bool`, used as a set of
identifiers, is modelled as `Finset Int`; the Go map `map[string]*lockCounter`
is modelled as a function `String → Option lockCounter`.
-/

namespace LockServer

/-- Go `type lockCounter struct { state int; lockID map[int]bool }`.
`state`: 0 → unlocked, 1 → write lock, 2 → read lock. -/
structure lockCounter where
  state : Int
  lockID : Finset Int
deriving DecidableEq

/-- The global mutable state of the server: the Go package variables
`lockMap` and `uid`. The mutex `mu` serializes the four operations, so each
operation is modelled as a sequential state transformer. -/
structure ServerState where
  lockMap : String → Option lockCounter
  uid : Int

/-- The record a path maps to, with the zero-value record standing in for a
missing entry (Go allocates `&lockCounter{lockID: make(map[int]bool)}`,
whose `state` is 0, when the entry is `nil`). -/
def recordOf (s : ServerState) (path : String) : lockCounter :=
  (s.lockMap path).getD { state := 0, lockID := (∅ : Finset Int) }

/-- The current mode of a key: 0 when the record is absent (Go lazily creates
a zero-valued record before inspecting `state`). -/
def modeOf (s : ServerState) (path : String) : Int :=
  (recordOf s path).state

/-- The current holder set of a key (empty when the record is absent). -/
def holdersOf (s : ServerState) (path : String) : Finset Int :=
  (recordOf s path).lockID

/-- Go `func lock(path string) int`: write lock. When the entry is `nil` the
Go code first inserts a fresh zero-valued record; since that record has
`state == 0` the success branch then overwrites it, so a single map update
with the final record yields the same map. Returns the new lock id on
success and -1 when the key is held. -/
def lock (path : String) (s : ServerState) : Int × ServerState :=
  let counter := recordOf s path
  if counter.state = 0 then
    (s.uid,
     { lockMap := Function.update s.lockMap path
         (some { state := 1, lockID := insert s.uid counter.lockID }),
       uid := s.uid + 1 })
  else
    (-1, s)

/-- Go `func unlock(path string, lockID int) bool`: write unlock. Succeeds
only when the record exists, `state == 1` and `lockID` is in the set; then
it deletes the id and sets `state = 0`. -/
def unlock (path : String) (lockID : Int) (s : ServerState) : Bool × ServerState :=
  match s.lockMap path with
  | none => (false, s)
  | some counter =>
    if counter.state ≠ 1 then (false, s)
    else if lockID ∈ counter.lockID then
      (true,
       { lockMap := Function.update s.lockMap path
           (some { state := 0, lockID := counter.lockID.erase lockID }),
         uid := s.uid })
    else (false, s)

/-- Go `func rlock(path string) int`: read lock. Lazy creation as in `lock`;
succeeds when `state == 0 || state == 2`, setting `state = 2` and adding a
fresh id. Returns -1 when the key is write-locked. -/
def rlock (path : String) (s : ServerState) : Int × ServerState :=
  let counter := recordOf s path
  if counter.state = 0 ∨ counter.state = 2 then
    (s.uid,
     { lockMap := Function.update s.lockMap path
         (some { state := 2, lockID := insert s.uid counter.lockID }),
       uid := s.uid + 1 })
  else
    (-1, s)

/-- Go `func runlock(path string, lockID int) bool`: read unlock. Succeeds
only when the record exists, `state == 2` and `lockID` is in the set; then
it deletes the id and, if the set became empty, sets `state = 0`. -/
def runlock (path : String) (lockID : Int) (s : ServerState) : Bool × ServerState :=
  match s.lockMap path with
  | none => (false, s)
  | some counter =>
    if counter.state ≠ 2 then (false, s)
    else if lockID ∈ counter.lockID then
      let rest := counter.lockID.erase lockID
      (true,
       { lockMap := Function.update s.lockMap path
           (some { state := if rest.card = 0 then 0 else counter.state,
                   lockID := rest }),
         uid := s.uid })
    else (false, s)

/-- The state at startup: `lockMap` is the empty map and `main` sets
`uid = 1` before serving. -/
def initState : ServerState :=
  { lockMap := fun _ => none, uid := 1 }

/-- One of the four lock-table operations with its arguments. -/
inductive LOp where
  | lock (path : String)
  | unlock (path : String) (lockID : Int)
  | rlock (path : String)
  | runlock (path : String) (lockID : Int)
deriving DecidableEq, Repr

/-- The result of a lock-table operation: the raw `int` returned by an
acquisition (-1 means busy) or the `bool` returned by a release. -/
inductive LRes where
  | acquired (lockID : Int)
  | released (ok : Bool)
deriving DecidableEq, Repr

/-- Execute one operation on the state. -/
def step (s : ServerState) : LOp → LRes × ServerState
  | .lock p => let r := lock p s; (.acquired r.1, r.2)
  | .unlock p i => let r := unlock p i s; (.released r.1, r.2)
  | .rlock p => let r := rlock p s; (.acquired r.1, r.2)
  | .runlock p i => let r := runlock p i s; (.released r.1, r.2)

/-- Execute a sequence of operations, collecting the results. -/
def run (s : ServerState) : List LOp → List LRes × ServerState
  | [] => ([], s)
  | op :: rest =>
    let r := step s op
    let t := run r.2 rest
    (r.1 :: t.1, t.2)

/-- Final state after a sequence of operations. -/
def runOps (ops : List LOp) (s : ServerState) : ServerState :=
  (run s ops).2

/-- The identifiers handed out by the successful acquisitions in a result
list (an acquisition succeeded exactly when it did not return -1). -/
def grants (rs : List LRes) : List Int :=
  rs.filterMap fun r =>
    match r with
    | .acquired n => if n = -1 then none else some n
    | .released _ => none

/-- Whether a parsed query (an ordered list of key/value pairs, as produced
by Go's `r.URL.Query()`) contains a given key: the Go code's
`_, ok := query[k]` check. -/
def queryHas (q : List (String × String)) (k : String) : Bool :=
  q.any (fun kv => kv.1 == k)

/-- The first value for a key, or the empty string when the key is absent:
Go's `url.Values.Get`. -/
def queryGet (q : List (String × String)) (k : String) : String :=
  match q.find? (fun kv => kv.1 == k) with
  | some kv => kv.2
  | none => ""

/-- The decimal value of a nonempty all-digit character list, `none`
otherwise. -/
def digitsVal : List Char → Option Nat
  | [] => none
  | l =>
    if l.all Char.isDigit
    then some (l.foldl (fun acc c => acc * 10 + (c.toNat - 48)) 0)
    else none

/-- Go `strconv.Atoi` on a 64-bit platform (`int` = `int64`): an optional
sign followed by at least one decimal digit, with a range error (`none`)
when the value falls outside [-2^63, 2^63 - 1]; a syntax error (in
particular the empty string) is also `none`. The handler only inspects
`err != nil`, so both error kinds are modelled alike. -/
def atoi (str : String) : Option Int :=
  match str.data with
  | [] => none
  | c :: rest =>
    if c = '-' then
      (digitsVal rest).bind (fun n => if n ≤ 2 ^ 63 then some (-(n : Int)) else none)
    else if c = '+' then
      (digitsVal rest).bind (fun n => if n < 2 ^ 63 then some (n : Int) else none)
    else
      (digitsVal (c :: rest)).bind (fun n => if n < 2 ^ 63 then some (n : Int) else none)

/-- Go `lHandler`: the acquisition endpoint. The returned `Option String` is
the response body written to `w` (`none` when nothing is written), paired
with the server state after the call. -/
def lHandler (readLock : Bool) (q : List (String × String)) (s : ServerState) :
    Option String × ServerState :=
  if queryHas q "key" = false then (some "failure\n", s)
  else
    let path := queryGet q "key"
    let r := if readLock then rlock path s else lock path s
    if r.1 = -1 then (some "retry\n", r.2)
    else (some (toString r.1 ++ "\n"), r.2)

/-- Go `ulHandler`: the release endpoint. When `strconv.Atoi` fails the Go
code logs to stdout and returns without writing a response body (`none`). -/
def ulHandler (readUnLock : Bool) (q : List (String × String)) (s : ServerState) :
    Option String × ServerState :=
  if queryHas q "key" = false then (some "failure\n", s)
  else if queryHas q "lock-id" = false then (some "failure\n", s)
  else
    let path := queryGet q "key"
    let stringID := queryGet q "lock-id"
    if stringID.length = 0 then (some "failure\n", s)
    else
      match atoi stringID with
      | none => (none, s)
      | some lockID =>
        let r := if readUnLock then runlock path lockID s else unlock path lockID s
        (if r.1 then some "success\n" else some "failure\n", r.2)

/-- The record invariants I1–I3 of the spec, together with the fact that the
mode is one of the three legal values: EXCLUSIVE (1) has exactly one holder,
SHARED (2) has at least one holder, UNLOCKED (0) has none. -/
def WFrec (c : lockCounter) : Prop :=
  (c.state = 0 ∨ c.state = 1 ∨ c.state = 2) ∧
  (c.state = 1 → c.lockID.card = 1) ∧
  (c.state = 2 → 1 ≤ c.lockID.card) ∧
  (c.state = 0 → c.lockID = ∅)

/-- The reachable-state invariant: the counter is at least 1 (as `main`
initializes it), every record is well-formed, and every outstanding
identifier is below the counter. -/
def Inv (s : ServerState) : Prop :=
  1 ≤ s.uid ∧ ∀ p c, s.lockMap p = some c → WFrec c ∧ ∀ i ∈ c.lockID, i < s.uid

theorem init_inv : Inv initState := by
  refine ⟨le_refl 1, fun p c hc => ?_⟩
  simp [initState] at hc

theorem holders_empty_of_mode_zero {s : ServerState} {p : String}
    (h : Inv s) (h0 : (recordOf s p).state = 0) : (recordOf s p).lockID = ∅ := by
  unfold recordOf at h0 ⊢
  cases hm : s.lockMap p with
  | none => simp
  | some c0 =>
    simp only [hm, Option.getD_some] at h0 ⊢
    exact (h.2 p c0 hm).1.2.2.2 h0

theorem holders_lt_uid {s : ServerState} {p : String}
    (h : Inv s) : ∀ i ∈ (recordOf s p).lockID, i < s.uid := by
  unfold recordOf
  cases hm : s.lockMap p with
  | none => simp
  | some c0 =>
    intro i hi
    exact (h.2 p c0 hm).2 i hi

theorem lock_inv (p : String) (s : ServerState) (h : Inv s) : Inv (lock p s).2 := by
  obtain ⟨huid, hrec⟩ := h
  by_cases h0 : (recordOf s p).state = 0
  · have hemp : (recordOf s p).lockID = ∅ :=
      holders_empty_of_mode_zero ⟨huid, hrec⟩ h0
    simp only [lock, h0, if_pos]
    refine ⟨by dsimp only; omega, fun q c hq => ?_⟩
    dsimp only at hq ⊢
    by_cases hqp : q = p
    · subst hqp
      rw [Function.update_same] at hq
      injection hq with hc
      subst hc
      refine ⟨⟨Or.inr (Or.inl rfl), ?_, ?_, ?_⟩, ?_⟩
      · intro _; rw [hemp]; simp
      · intro h2; norm_num at h2
      · intro h2; norm_num at h2
      · intro i hi
        rw [hemp] at hi
        simp at hi
        omega
    · rw [Function.update_noteq hqp] at hq
      refine ⟨(hrec q c hq).1, fun i hi => ?_⟩
      have := (hrec q c hq).2 i hi
      omega
  · simp only [lock, h0, if_neg]
    exact ⟨huid, hrec⟩

theorem rlock_inv (p : String) (s : ServerState) (h : Inv s) : Inv (rlock p s).2 := by
  obtain ⟨huid, hrec⟩ := h
  by_cases h0 : (recordOf s p).state = 0 ∨ (recordOf s p).state = 2
  · simp only [rlock, h0, if_pos]
    refine ⟨by dsimp only; omega, fun q c hq => ?_⟩
    dsimp only at hq ⊢
    by_cases hqp : q = p
    · subst hqp
      rw [Function.update_same] at hq
      injection hq with hc
      subst hc
      refine ⟨⟨Or.inr (Or.inr rfl), ?_, ?_, ?_⟩, ?_⟩
      · intro h1; norm_num at h1
      · intro _
        exact Finset.card_pos.mpr ⟨s.uid, Finset.mem_insert_self _ _⟩
      · intro h2; norm_num at h2
      · intro i hi
        rcases Finset.mem_insert.mp hi with hi | hi
        · omega
        · have := holders_lt_uid ⟨huid, hrec⟩ i hi
          omega
    · rw [Function.update_noteq hqp] at hq
      refine ⟨(hrec q c hq).1, fun i hi => ?_⟩
      have := (hrec q c hq).2 i hi
      omega
  · simp only [rlock, h0, if_neg]
    exact ⟨huid, hrec⟩

theorem unlock_inv (p : String) (lockID : Int) (s : ServerState) (h : Inv s) :
    Inv (unlock p lockID s).2 := by
  obtain ⟨huid, hrec⟩ := h
  unfold unlock
  cases hm : s.lockMap p with
  | none => exact ⟨huid, hrec⟩
  | some counter =>
    dsimp only
    by_cases h1 : counter.state ≠ 1
    · rw [if_pos h1]
      exact ⟨huid, hrec⟩
    · by_cases hmem : lockID ∈ counter.lockID
      · rw [if_neg h1, if_pos hmem]
        push_neg at h1
        have hcard : counter.lockID.card = 1 := (hrec p counter hm).1.2.1 h1
        have herase : (counter.lockID.erase lockID) = ∅ := by
          have := Finset.card_erase_of_mem hmem
          rw [hcard] at this
          exact Finset.card_eq_zero.mp (by omega)
        refine ⟨huid, fun q c hq => ?_⟩
        dsimp only at hq ⊢
        by_cases hqp : q = p
        · subst hqp
          rw [Function.update_same] at hq
          injection hq with hc
          subst hc
          refine ⟨⟨Or.inl rfl, ?_, ?_, fun _ => herase⟩, ?_⟩
          · intro h'; norm_num at h'
          · intro h'; norm_num at h'
          · intro i hi
            rw [herase] at hi
            simp at hi
        · rw [Function.update_noteq hqp] at hq
          exact hrec q c hq
      · rw [if_neg h1, if_neg hmem]
        exact ⟨huid, hrec⟩

theorem runlock_inv (p : String) (lockID : Int) (s : ServerState) (h : Inv s) :
    Inv (runlock p lockID s).2 := by
  obtain ⟨huid, hrec⟩ := h
  unfold runlock
  cases hm : s.lockMap p with
  | none => exact ⟨huid, hrec⟩
  | some counter =>
    dsimp only
    by_cases h2 : counter.state ≠ 2
    · rw [if_pos h2]
      exact ⟨huid, hrec⟩
    · by_cases hmem : lockID ∈ counter.lockID
      · rw [if_neg h2, if_pos hmem]
        push_neg at h2
        refine ⟨huid, fun q c hq => ?_⟩
        dsimp only at hq ⊢
        by_cases hqp : q = p
        · subst hqp
          rw [Function.update_same] at hq
          injection hq with hc
          subst hc
          constructor
          · by_cases hz : (counter.lockID.erase lockID).card = 0
            · rw [if_pos hz]
              exact ⟨Or.inl rfl, fun h' => by norm_num at h', fun h' => by norm_num at h',
                fun _ => Finset.card_eq_zero.mp hz⟩
            · rw [if_neg hz, h2]
              exact ⟨Or.inr (Or.inr rfl), fun h' => by norm_num at h',
                fun _ => Nat.pos_of_ne_zero hz, fun h' => by norm_num at h'⟩
          · intro i hi
            exact (hrec _ counter hm).2 i (Finset.mem_of_mem_erase hi)
        · rw [Function.update_noteq hqp] at hq
          exact hrec q c hq
      · rw [if_neg h2, if_neg hmem]
        exact ⟨huid, hrec⟩

theorem step_inv (op : LOp) (s : ServerState) (h : Inv s) : Inv (step s op).2 := by
  cases op with
  | lock p => exact lock_inv p s h
  | unlock p i => exact unlock_inv p i s h
  | rlock p => exact rlock_inv p s h
  | runlock p i => exact runlock_inv p i s h

theorem run_inv (ops : List LOp) (s : ServerState) (h : Inv s) : Inv (run s ops).2 := by
  induction ops generalizing s with
  | nil => exact h
  | cons op rest ih => exact ih (step s op).2 (step_inv op s h)

theorem modeOf_eq_zero_of_none {s : ServerState} {p : String}
    (h : s.lockMap p = none) : modeOf s p = 0 := by
  unfold modeOf recordOf
  rw [h]
  rfl

theorem lock_succ (path : String) (s : ServerState) (h0 : modeOf s path = 0) :
    lock path s =
      (s.uid,
       { lockMap := Function.update s.lockMap path
           (some { state := 1, lockID := insert s.uid (holdersOf s path) }),
         uid := s.uid + 1 }) := by
  simp only [lock]
  rw [if_pos (show (recordOf s path).state = 0 from h0)]
  rfl

theorem lock_busy (path : String) (s : ServerState) (h0 : modeOf s path ≠ 0) :
    lock path s = (-1, s) := by
  simp only [lock]
  rw [if_neg (show ¬(recordOf s path).state = 0 from h0)]

theorem rlock_succ (path : String) (s : ServerState)
    (h0 : modeOf s path = 0 ∨ modeOf s path = 2) :
    rlock path s =
      (s.uid,
       { lockMap := Function.update s.lockMap path
           (some { state := 2, lockID := insert s.uid (holdersOf s path) }),
         uid := s.uid + 1 }) := by
  simp only [rlock]
  rw [if_pos (show (recordOf s path).state = 0 ∨ (recordOf s path).state = 2 from h0)]
  rfl

theorem rlock_busy (path : String) (s : ServerState)
    (h0 : ¬(modeOf s path = 0 ∨ modeOf s path = 2)) :
    rlock path s = (-1, s) := by
  simp only [rlock]
  rw [if_neg
    (show ¬((recordOf s path).state = 0 ∨ (recordOf s path).state = 2) from h0)]

theorem unlock_elim (path : String) (lockID : Int) (s : ServerState) :
    (∃ c, s.lockMap path = some c ∧ c.state = 1 ∧ lockID ∈ c.lockID ∧
       unlock path lockID s =
         (true,
          { lockMap := Function.update s.lockMap path
              (some { state := 0, lockID := c.lockID.erase lockID }),
            uid := s.uid })) ∨
    (unlock path lockID s = (false, s) ∧
     ¬∃ c, s.lockMap path = some c ∧ c.state = 1 ∧ lockID ∈ c.lockID) := by
  unfold unlock
  cases hm : s.lockMap path with
  | none =>
    right
    exact ⟨rfl, by rintro ⟨c, hc, -⟩; cases hc⟩
  | some c =>
    dsimp only
    by_cases h1 : c.state = 1
    · by_cases hmem : lockID ∈ c.lockID
      · left
        exact ⟨c, rfl, h1, hmem, by rw [if_neg (not_not_intro h1), if_pos hmem]⟩
      · right
        refine ⟨by rw [if_neg (not_not_intro h1), if_neg hmem], ?_⟩
        rintro ⟨c2, hc2, -, hm2⟩
        injection hc2 with e
        subst e
        exact hmem hm2
    · right
      refine ⟨by rw [if_pos h1], ?_⟩
      rintro ⟨c2, hc2, hs2, -⟩
      injection hc2 with e
      subst e
      exact h1 hs2

theorem runlock_elim (path : String) (lockID : Int) (s : ServerState) :
    (∃ c, s.lockMap path = some c ∧ c.state = 2 ∧ lockID ∈ c.lockID ∧
       runlock path lockID s =
         (true,
          { lockMap := Function.update s.lockMap path
              (some { state := if (c.lockID.erase lockID).card = 0 then 0 else c.state,
                      lockID := c.lockID.erase lockID }),
            uid := s.uid })) ∨
    (runlock path lockID s = (false, s) ∧
     ¬∃ c, s.lockMap path = some c ∧ c.state = 2 ∧ lockID ∈ c.lockID) := by
  unfold runlock
  cases hm : s.lockMap path with
  | none =>
    right
    exact ⟨rfl, by rintro ⟨c, hc, -⟩; cases hc⟩
  | some c =>
    dsimp only
    by_cases h2 : c.state = 2
    · by_cases hmem : lockID ∈ c.lockID
      · left
        exact ⟨c, rfl, h2, hmem, by rw [if_neg (not_not_intro h2), if_pos hmem]⟩
      · right
        refine ⟨by rw [if_neg (not_not_intro h2), if_neg hmem], ?_⟩
        rintro ⟨c2, hc2, -, hm2⟩
        injection hc2 with e
        subst e
        exact hmem hm2
    · right
      refine ⟨by rw [if_pos h2], ?_⟩
      rintro ⟨c2, hc2, hs2, -⟩
      injection hc2 with e
      subst e
      exact h2 hs2

theorem lock_acq_cases (p : String) (s : ServerState) :
    ((lock p s).1 = s.uid ∧ (lock p s).2.uid = s.uid + 1) ∨
    ((lock p s).1 = -1 ∧ (lock p s).2 = s) := by
  unfold lock
  dsimp only
  split
  · exact Or.inl ⟨rfl, rfl⟩
  · exact Or.inr ⟨rfl, rfl⟩

theorem rlock_acq_cases (p : String) (s : ServerState) :
    ((rlock p s).1 = s.uid ∧ (rlock p s).2.uid = s.uid + 1) ∨
    ((rlock p s).1 = -1 ∧ (rlock p s).2 = s) := by
  unfold rlock
  dsimp only
  split
  · exact Or.inl ⟨rfl, rfl⟩
  · exact Or.inr ⟨rfl, rfl⟩

theorem unlock_uid (p : String) (i : Int) (s : ServerState) :
    (unlock p i s).2.uid = s.uid := by
  unfold unlock
  cases s.lockMap p with
  | none => rfl
  | some c =>
    dsimp only
    split
    · rfl
    · split
      · rfl
      · rfl

theorem runlock_uid (p : String) (i : Int) (s : ServerState) :
    (runlock p i s).2.uid = s.uid := by
  unfold runlock
  cases s.lockMap p with
  | none => rfl
  | some c =>
    dsimp only
    split
    · rfl
    · split
      · rfl
      · rfl

theorem run_cons (s : ServerState) (op : LOp) (rest : List LOp) :
    run s (op :: rest) =
      ((step s op).1 :: (run (step s op).2 rest).1, (run (step s op).2 rest).2) := rfl

theorem step_lock (s : ServerState) (p : String) :
    step s (LOp.lock p) = (LRes.acquired (lock p s).1, (lock p s).2) := rfl

theorem step_unlock (s : ServerState) (p : String) (i : Int) :
    step s (LOp.unlock p i) = (LRes.released (unlock p i s).1, (unlock p i s).2) := rfl

theorem step_rlock (s : ServerState) (p : String) :
    step s (LOp.rlock p) = (LRes.acquired (rlock p s).1, (rlock p s).2) := rfl

theorem step_runlock (s : ServerState) (p : String) (i : Int) :
    step s (LOp.runlock p i) = (LRes.released (runlock p i s).1, (runlock p i s).2) := rfl

theorem grants_acq_cons (n : Int) (rs : List LRes) :
    grants (LRes.acquired n :: rs) =
      if n = -1 then grants rs else n :: grants rs := by
  by_cases h : n = -1
  · rw [if_pos h]
    simp [grants, List.filterMap_cons, h]
  · rw [if_neg h]
    simp [grants, List.filterMap_cons, h]

theorem grants_rel_cons (b : Bool) (rs : List LRes) :
    grants (LRes.released b :: rs) = grants rs := by
  simp only [grants, List.filterMap_cons]

/-- Every grant along a run is at least the starting counter value, the
counter never decreases, and the grant list is strictly increasing. -/
theorem grants_bounded (ops : List LOp) : ∀ s : ServerState,
    (∀ g ∈ grants (run s ops).1, s.uid ≤ g) ∧
    s.uid ≤ (run s ops).2.uid ∧
    List.Pairwise (fun a b => a < b) (grants (run s ops).1) := by
  induction ops with
  | nil =>
    intro s
    exact ⟨by simp [run, grants], le_refl _, by simp [run, grants]⟩
  | cons op rest ih =>
    intro s
    cases op with
    | lock p =>
      rw [run_cons, step_lock]
      dsimp only
      rcases lock_acq_cases p s with ⟨h1, h2⟩ | ⟨h1, h2⟩
      · obtain ⟨iha, ihb, ihc⟩ := ih (lock p s).2
        rw [grants_acq_cons, h1]
        by_cases hneg : s.uid = -1
        · rw [if_pos hneg]
          refine ⟨fun g hg => ?_, by omega, ihc⟩
          have := iha g hg
          omega
        · rw [if_neg hneg]
          refine ⟨?_, by omega, ?_⟩
          · intro g hg
            rcases List.mem_cons.mp hg with rfl | hg
            · exact le_refl _
            · have := iha g hg
              omega
          · refine List.Pairwise.cons (fun b hb => ?_) ihc
            have := iha b hb
            omega
      · rw [grants_acq_cons, h1, if_pos rfl, h2]
        exact ih s
    | rlock p =>
      rw [run_cons, step_rlock]
      dsimp only
      rcases rlock_acq_cases p s with ⟨h1, h2⟩ | ⟨h1, h2⟩
      · obtain ⟨iha, ihb, ihc⟩ := ih (rlock p s).2
        rw [grants_acq_cons, h1]
        by_cases hneg : s.uid = -1
        · rw [if_pos hneg]
          refine ⟨fun g hg => ?_, by omega, ihc⟩
          have := iha g hg
          omega
        · rw [if_neg hneg]
          refine ⟨?_, by omega, ?_⟩
          · intro g hg
            rcases List.mem_cons.mp hg with rfl | hg
            · exact le_refl _
            · have := iha g hg
              omega
          · refine List.Pairwise.cons (fun b hb => ?_) ihc
            have := iha b hb
            omega
      · rw [grants_acq_cons, h1, if_pos rfl, h2]
        exact ih s
    | unlock p i =>
      rw [run_cons, step_unlock]
      dsimp only
      obtain ⟨iha, ihb, ihc⟩ := ih (unlock p i s).2
      rw [grants_rel_cons]
      have hu := unlock_uid p i s
      rw [hu] at iha ihb
      exact ⟨iha, ihb, ihc⟩
    | runlock p i =>
      rw [run_cons, step_runlock]
      dsimp only
      obtain ⟨iha, ihb, ihc⟩ := ih (runlock p i s).2
      rw [grants_rel_cons]
      have hu := runlock_uid p i s
      rw [hu] at iha ihb
      exact ⟨iha, ihb, ihc⟩

theorem modeOf_legal {s : ServerState} (h : Inv s) (p : String) :
    modeOf s p = 0 ∨ modeOf s p = 1 ∨ modeOf s p = 2 := by
  unfold modeOf recordOf
  cases hm : s.lockMap p with
  | none => exact Or.inl rfl
  | some c => exact (h.2 p c hm).1.1

/-- C1: after any sequence of the four lock-table operations starting from
the initial empty table, every existing record has one of the three legal
modes and satisfies I1–I3: mode EXCLUSIVE (1) has exactly one holder, mode
SHARED (2) has at least one holder, and mode UNLOCKED (0) has no holders. -/
theorem lock_table_invariants (ops : List LOp) (path : String) (c : lockCounter)
    (h : (runOps ops initState).lockMap path = some c) :
    (c.state = 0 ∨ c.state = 1 ∨ c.state = 2) ∧
    (c.state = 1 → c.lockID.card = 1) ∧
    (c.state = 2 → 1 ≤ c.lockID.card) ∧
    (c.state = 0 → c.lockID = ∅) :=
  ((run_inv ops initState init_inv).2 path c h).1

theorem lock_table_invariants_witness :
    (runOps [LOp.lock "/a"] initState).lockMap "/a" =
      some { state := 1, lockID := {1} } ∧
    (((1 : Int) = 0 ∨ (1 : Int) = 1 ∨ (1 : Int) = 2) ∧
     ((1 : Int) = 1 → ({1} : Finset Int).card = 1) ∧
     ((1 : Int) = 2 → 1 ≤ ({1} : Finset Int).card) ∧
     ((1 : Int) = 0 → ({1} : Finset Int) = ∅)) :=
  ⟨by decide,
   lock_table_invariants [LOp.lock "/a"] "/a" { state := 1, lockID := {1} } (by decide)⟩

/-- C2: acquire-exclusive succeeds iff the key's current mode (0 for a
missing record) is UNLOCKED; on success it returns the counter value, which
is fresh (in no holder set), increments the counter, stores the EXCLUSIVE
record with the new id inserted, and touches no other key; otherwise it
returns -1 (BUSY) and leaves the state unchanged. -/
theorem lock_spec (path : String) (s : ServerState) (h : Inv s) :
    ((lock path s).1 ≠ -1 ↔ modeOf s path = 0) ∧
    (modeOf s path = 0 →
      (lock path s).1 = s.uid ∧
      (∀ p c, s.lockMap p = some c → s.uid ∉ c.lockID) ∧
      (lock path s).2.uid = s.uid + 1 ∧
      (lock path s).2.lockMap path =
        some { state := 1, lockID := insert s.uid (holdersOf s path) } ∧
      (∀ p, p ≠ path → (lock path s).2.lockMap p = s.lockMap p)) ∧
    (modeOf s path ≠ 0 → (lock path s).1 = -1 ∧ (lock path s).2 = s) := by
  have huid := h.1
  have hfresh : ∀ p c, s.lockMap p = some c → s.uid ∉ c.lockID := by
    intro p c hp hmem
    have := (h.2 p c hp).2 s.uid hmem
    omega
  by_cases h0 : modeOf s path = 0
  · rw [lock_succ path s h0]
    refine ⟨⟨fun _ => h0, fun _ => by dsimp only; omega⟩, fun _ => ?_,
      fun hn => absurd h0 hn⟩
    refine ⟨rfl, hfresh, rfl, ?_, ?_⟩
    · dsimp only
      rw [Function.update_same]
    · intro p hp
      dsimp only
      rw [Function.update_noteq hp]
  · rw [lock_busy path s h0]
    exact ⟨⟨fun hne => absurd rfl hne, fun he => absurd he h0⟩,
      fun he => absurd he h0, fun _ => ⟨rfl, rfl⟩⟩

theorem lock_spec_witness :
    (lock "/a" initState).1 = 1 ∧ (lock "/a" initState).2.uid = 2 := by
  obtain ⟨-, hs, -⟩ := lock_spec "/a" initState init_inv
  obtain ⟨h1, -, h2, -⟩ := hs (by decide)
  refine ⟨?_, ?_⟩
  · rw [h1]
    rfl
  · rw [h2]
    rfl

/-- C3: acquire-shared succeeds iff the key's current mode (0 for a missing
record) is UNLOCKED or SHARED, and fails (-1, BUSY) exactly when the mode is
EXCLUSIVE; on success it returns the counter value (fresh), increments the
counter, stores the SHARED record with the new id inserted regardless of how
many holders already exist, and touches no other key; on BUSY the state is
unchanged. -/
theorem rlock_spec (path : String) (s : ServerState) (h : Inv s) :
    ((rlock path s).1 ≠ -1 ↔ (modeOf s path = 0 ∨ modeOf s path = 2)) ∧
    ((rlock path s).1 = -1 ↔ modeOf s path = 1) ∧
    ((modeOf s path = 0 ∨ modeOf s path = 2) →
      (rlock path s).1 = s.uid ∧
      (∀ p c, s.lockMap p = some c → s.uid ∉ c.lockID) ∧
      (rlock path s).2.uid = s.uid + 1 ∧
      (rlock path s).2.lockMap path =
        some { state := 2, lockID := insert s.uid (holdersOf s path) } ∧
      (∀ p, p ≠ path → (rlock path s).2.lockMap p = s.lockMap p)) ∧
    (modeOf s path = 1 → rlock path s = (-1, s)) := by
  have huid := h.1
  have hfresh : ∀ p c, s.lockMap p = some c → s.uid ∉ c.lockID := by
    intro p c hp hmem
    have := (h.2 p c hp).2 s.uid hmem
    omega
  by_cases h02 : modeOf s path = 0 ∨ modeOf s path = 2
  · rw [rlock_succ path s h02]
    refine ⟨⟨fun _ => h02, fun _ => by dsimp only; omega⟩,
      ⟨fun he => by dsimp only at he; omega,
       fun h1 => by rcases h02 with h' | h' <;> rw [h1] at h' <;> norm_num at h'⟩,
      fun _ => ⟨rfl, hfresh, rfl, ?_, ?_⟩,
      fun h1 => by rcases h02 with h' | h' <;> rw [h1] at h' <;> norm_num at h'⟩
    · dsimp only
      rw [Function.update_same]
    · intro p hp
      dsimp only
      rw [Function.update_noteq hp]
  · have h1 : modeOf s path = 1 := by
      rcases modeOf_legal h path with h' | h' | h'
      · exact absurd (Or.inl h') h02
      · exact h'
      · exact absurd (Or.inr h') h02
    rw [rlock_busy path s h02]
    exact ⟨⟨fun hne => absurd rfl hne, fun hh => absurd hh h02⟩,
      ⟨fun _ => h1, fun _ => rfl⟩, fun hh => absurd hh h02, fun _ => rfl⟩

theorem rlock_spec_witness :
    (rlock "/b" initState).1 = 1 ∧ (rlock "/b" initState).2.uid = 2 := by
  obtain ⟨-, -, hs, -⟩ := rlock_spec "/b" initState init_inv
  obtain ⟨h1, -, h2, -⟩ := hs (Or.inl (by decide))
  refine ⟨?_, ?_⟩
  · rw [h1]
    rfl
  · rw [h2]
    rfl

/-- C4: release-exclusive returns true (OK) iff the key's record exists with
mode EXCLUSIVE and the identifier in its holder set; on success it removes
the identifier, sets the mode to UNLOCKED, keeps the counter and every other
key unchanged; in every other case it returns false (REJECTED) and the
entire state is unchanged. -/
theorem unlock_spec (path : String) (lockID : Int) (s : ServerState) :
    ((unlock path lockID s).1 = true ↔
      ∃ c, s.lockMap path = some c ∧ c.state = 1 ∧ lockID ∈ c.lockID) ∧
    ((unlock path lockID s).1 = true →
      (unlock path lockID s).2.lockMap path =
        some { state := 0, lockID := (holdersOf s path).erase lockID } ∧
      (∀ p, p ≠ path → (unlock path lockID s).2.lockMap p = s.lockMap p) ∧
      (unlock path lockID s).2.uid = s.uid) ∧
    ((unlock path lockID s).1 = false → (unlock path lockID s).2 = s) := by
  rcases unlock_elim path lockID s with ⟨c, hm, h1, hmem, heq⟩ | ⟨heq, hnone⟩
  · have hhold : holdersOf s path = c.lockID := by
      unfold holdersOf recordOf
      rw [hm]
      rfl
    rw [heq]
    refine ⟨⟨fun _ => ⟨c, hm, h1, hmem⟩, fun _ => rfl⟩, fun _ => ?_,
      fun hf => Bool.noConfusion hf⟩
    refine ⟨?_, ?_, rfl⟩
    · dsimp only
      rw [Function.update_same, hhold]
    · intro p hp
      dsimp only
      rw [Function.update_noteq hp]
  · rw [heq]
    exact ⟨⟨fun hf => Bool.noConfusion hf, fun hex => absurd hex hnone⟩,
      fun hf => Bool.noConfusion hf, fun _ => rfl⟩

theorem unlock_spec_witness :
    (unlock "/a" 1 (runOps [LOp.lock "/a"] initState)).1 = true ∧
    (unlock "/a" 1 (runOps [LOp.lock "/a"] initState)).2.uid = 2 := by
  obtain ⟨hiff, heff, -⟩ := unlock_spec "/a" 1 (runOps [LOp.lock "/a"] initState)
  have ht : (unlock "/a" 1 (runOps [LOp.lock "/a"] initState)).1 = true :=
    hiff.mpr ⟨{ state := 1, lockID := {1} }, by decide, rfl, by decide⟩
  obtain ⟨-, -, hu⟩ := heff ht
  refine ⟨ht, ?_⟩
  rw [hu]
  rfl

/-- C5: release-shared returns true (OK) iff the key's record exists with
mode SHARED and the identifier in its holder set; on success it removes the
identifier and sets the mode back to UNLOCKED exactly when the holder set
became empty (after which acquire-exclusive on that key succeeds), keeping
the counter and every other key unchanged; in every other case it returns
false (REJECTED) and the entire state is unchanged. -/
theorem runlock_spec (path : String) (lockID : Int) (s : ServerState) (h : Inv s) :
    ((runlock path lockID s).1 = true ↔
      ∃ c, s.lockMap path = some c ∧ c.state = 2 ∧ lockID ∈ c.lockID) ∧
    ((runlock path lockID s).1 = true →
      (runlock path lockID s).2.lockMap path =
        some { state := if ((holdersOf s path).erase lockID).card = 0 then 0 else 2,
               lockID := (holdersOf s path).erase lockID } ∧
      ((holdersOf s path).erase lockID = ∅ →
        (lock path (runlock path lockID s).2).1 ≠ -1) ∧
      (∀ p, p ≠ path → (runlock path lockID s).2.lockMap p = s.lockMap p) ∧
      (runlock path lockID s).2.uid = s.uid) ∧
    ((runlock path lockID s).1 = false → (runlock path lockID s).2 = s) := by
  have huid := h.1
  rcases runlock_elim path lockID s with ⟨c, hm, h2, hmem, heq⟩ | ⟨heq, hnone⟩
  · have hhold : holdersOf s path = c.lockID := by
      unfold holdersOf recordOf
      rw [hm]
      rfl
    rw [heq]
    refine ⟨⟨fun _ => ⟨c, hm, h2, hmem⟩, fun _ => rfl⟩, fun _ => ?_,
      fun hf => Bool.noConfusion hf⟩
    refine ⟨?_, ?_, ?_, rfl⟩
    · dsimp only
      rw [Function.update_same, hhold, h2]
    · intro hempty
      rw [hhold] at hempty
      have hmode : modeOf
          ({ lockMap := Function.update s.lockMap path
               (some { state := if (c.lockID.erase lockID).card = 0 then 0 else c.state,
                       lockID := c.lockID.erase lockID }),
             uid := s.uid } : ServerState) path = 0 := by
        unfold modeOf recordOf
        dsimp only
        rw [Function.update_same]
        simp [hempty]
      rw [lock_succ _ _ hmode]
      dsimp only
      omega
    · intro p hp
      dsimp only
      rw [Function.update_noteq hp]
  · rw [heq]
    exact ⟨⟨fun hf => Bool.noConfusion hf, fun hex => absurd hex hnone⟩,
      fun hf => Bool.noConfusion hf, fun _ => rfl⟩

theorem runlock_spec_witness :
    (runlock "/b" 1 (runOps [LOp.rlock "/b"] initState)).1 = true ∧
    (runlock "/b" 1 (runOps [LOp.rlock "/b"] initState)).2.uid = 2 := by
  obtain ⟨hiff, heff, -⟩ :=
    runlock_spec "/b" 1 (runOps [LOp.rlock "/b"] initState)
      (run_inv [LOp.rlock "/b"] initState init_inv)
  have ht : (runlock "/b" 1 (runOps [LOp.rlock "/b"] initState)).1 = true :=
    hiff.mpr ⟨{ state := 2, lockID := {1} }, by decide, rfl, by decide⟩
  obtain ⟨-, -, -, hu⟩ := heff ht
  refine ⟨ht, ?_⟩
  rw [hu]
  rfl

/-- C8: a BUSY (-1) result from either acquisition operation leaves the
whole state (table and counter) unchanged, and can only happen on a key
whose record already exists, because an acquisition on a key with no record
always succeeds. -/
theorem busy_frame (path : String) (s : ServerState) (h : Inv s) :
    ((lock path s).1 = -1 → (lock path s).2 = s ∧ s.lockMap path ≠ none) ∧
    ((rlock path s).1 = -1 → (rlock path s).2 = s ∧ s.lockMap path ≠ none) ∧
    (s.lockMap path = none → (lock path s).1 ≠ -1 ∧ (rlock path s).1 ≠ -1) := by
  have huid := h.1
  refine ⟨?_, ?_, ?_⟩
  · intro hb
    by_cases h0 : modeOf s path = 0
    · rw [lock_succ path s h0] at hb
      dsimp only at hb
      omega
    · rw [lock_busy path s h0]
      exact ⟨rfl, fun hn => h0 (modeOf_eq_zero_of_none hn)⟩
  · intro hb
    by_cases h02 : modeOf s path = 0 ∨ modeOf s path = 2
    · rw [rlock_succ path s h02] at hb
      dsimp only at hb
      omega
    · rw [rlock_busy path s h02]
      exact ⟨rfl, fun hn => h02 (Or.inl (modeOf_eq_zero_of_none hn))⟩
  · intro hn
    have h0 := modeOf_eq_zero_of_none hn
    constructor
    · rw [lock_succ path s h0]
      dsimp only
      omega
    · rw [rlock_succ path s (Or.inl h0)]
      dsimp only
      omega

theorem busy_frame_witness :
    (lock "/a" (runOps [LOp.lock "/a"] initState)).1 = -1 ∧
    (lock "/a" (runOps [LOp.lock "/a"] initState)).2 =
      runOps [LOp.lock "/a"] initState ∧
    (runOps [LOp.lock "/a"] initState).lockMap "/a" ≠ none := by
  obtain ⟨hl, -, -⟩ :=
    busy_frame "/a" (runOps [LOp.lock "/a"] initState)
      (run_inv [LOp.lock "/a"] initState init_inv)
  have hb : (lock "/a" (runOps [LOp.lock "/a"] initState)).1 = -1 := by decide
  obtain ⟨he, hn⟩ := hl hb
  exact ⟨hb, he, hn⟩

/-- C6: along any run from the initial state, the identifiers returned by
successful acquisitions (exclusive or shared, on any keys) are strictly
increasing in order of grant, and hence pairwise distinct. -/
theorem grants_strictly_increasing (ops : List LOp) :
    List.Pairwise (fun a b => a < b) (grants (run initState ops).1) ∧
    (grants (run initState ops).1).Nodup := by
  have h := (grants_bounded ops initState).2.2
  exact ⟨h, h.imp (fun hab => ne_of_lt hab)⟩

/-- C7: from the program's initial state (`uid = 1` as set by `main`), the
scenario acquire-shared("/b"), acquire-shared("/b"), acquire-exclusive("/b"),
release-shared("/b", 1), acquire-exclusive("/b"), release-shared("/b", 2),
acquire-exclusive("/b") yields id 1, id 2, BUSY (-1), OK (true), BUSY (-1),
OK (true), id 3. -/
theorem shared_scenario :
    (run initState [LOp.rlock "/b", LOp.rlock "/b", LOp.lock "/b",
      LOp.runlock "/b" 1, LOp.lock "/b", LOp.runlock "/b" 2, LOp.lock "/b"]).1 =
    [LRes.acquired 1, LRes.acquired 2, LRes.acquired (-1), LRes.released true,
     LRes.acquired (-1), LRes.released true, LRes.acquired 3] := by decide

theorem queryGet_empty_of_not_has {q : List (String × String)} {k : String}
    (h : queryHas q k = false) : queryGet q k = "" := by
  cases hfind : q.find? (fun kv => kv.1 == k) with
  | none =>
    unfold queryGet
    rw [hfind]
  | some kv =>
    exfalso
    have hmem : kv ∈ q := List.mem_of_find?_eq_some hfind
    have hpred := List.find?_some hfind
    have hany : queryHas q k = true := by
      unfold queryHas
      rw [List.any_eq_true]
      exact ⟨kv, hmem, hpred⟩
    rw [hany] at h
    exact Bool.noConfusion h

/-- C9 counterexample: a release request carrying `key` and a `lock-id`
whose value is the empty string. The empty string does not parse as an
integer, yet the handler answers with the body "failure" (the Go code checks
`len(stringID) == 0` before calling `strconv.Atoi`), refuting the claim that
every non-parsing lock-id value produces no response body. -/
theorem empty_lockid_gets_failure_body :
    atoi (queryGet [("key", "/a"), ("lock-id", "")] "lock-id") = none ∧
    (ulHandler false [("key", "/a"), ("lock-id", "")] initState).1 =
      some "failure\n" := by decide

/-- C9 (amended): a request missing a required parameter (the key on any
call, or the lock-id on a release call) is answered with the line "failure"
and the lock table is left untouched; a present-but-empty lock-id value is
likewise answered with "failure"; and a release request whose lock-id value
is non-empty and does not parse as an integer (a syntax error or an int64
range error) gets no response body at all, again without touching the lock
table. -/
theorem transport_validation (b : Bool) (q : List (String × String))
    (s : ServerState) :
    (queryHas q "key" = false → lHandler b q s = (some "failure\n", s)) ∧
    (queryHas q "key" = false → ulHandler b q s = (some "failure\n", s)) ∧
    (queryHas q "lock-id" = false → ulHandler b q s = (some "failure\n", s)) ∧
    (queryGet q "lock-id" = "" → ulHandler b q s = (some "failure\n", s)) ∧
    (queryHas q "key" = true → queryGet q "lock-id" ≠ "" →
      atoi (queryGet q "lock-id") = none → ulHandler b q s = (none, s)) := by
  refine ⟨?_, ?_, ?_, ?_, ?_⟩
  · intro hk
    unfold lHandler
    rw [if_pos hk]
  · intro hk
    unfold ulHandler
    rw [if_pos hk]
  · intro hl
    unfold ulHandler
    by_cases hk : queryHas q "key" = false
    · rw [if_pos hk]
    · rw [if_neg hk, if_pos hl]
  · intro hempty
    unfold ulHandler
    by_cases hk : queryHas q "key" = false
    · rw [if_pos hk]
    · rw [if_neg hk]
      by_cases hl : queryHas q "lock-id" = false
      · rw [if_pos hl]
      · rw [if_neg hl]
        dsimp only
        rw [hempty]
        rw [if_pos (show ("" : String).length = 0 from rfl)]
  · intro hk hne hnone
    unfold ulHandler
    rw [if_neg (by rw [hk]; exact fun h => Bool.noConfusion h)]
    have hl : ¬(queryHas q "lock-id" = false) :=
      fun hl => hne (queryGet_empty_of_not_has hl)
    rw [if_neg hl]
    dsimp only
    rw [if_neg (fun h0 : (queryGet q "lock-id").length = 0 =>
      hne (String.ext (List.length_eq_zero.mp h0)))]
    rw [hnone]

theorem transport_validation_witness :
    lHandler false [] initState = (some "failure\n", initState) ∧
    ulHandler false [("key", "/a")] initState = (some "failure\n", initState) ∧
    ulHandler true [("key", "/a"), ("lock-id", "xyz")] initState =
      (none, initState) ∧
    ulHandler false [("key", "/a"), ("lock-id", "99999999999999999999")]
      initState = (none, initState) := by
  refine ⟨?_, ?_, ?_, ?_⟩
  · exact (transport_validation false [] initState).1 (by decide)
  · exact (transport_validation false [("key", "/a")] initState).2.2.1 (by decide)
  · exact (transport_validation true [("key", "/a"), ("lock-id", "xyz")]
      initState).2.2.2.2 (by decide) (by decide) (by decide)
  · exact (transport_validation false
      [("key", "/a"), ("lock-id", "99999999999999999999")]
      initState).2.2.2.2 (by decide) (by decide) (by decide)

end LockServer
